import Mathlib

/-!
Verification of the JCL batch-execution orchestrator
(`src/ZoweJCLExecutionCLI.py`).

The remote Zowe CLI is modelled as an oracle `Env` giving, for each remote
command keyed by its argument, the textual result (`stdout`/`stderr`) that
`subprocess.run` would capture.  Status queries additionally take the index
of the polling attempt, so that a job's observable status may change over
time.  The unbounded `while` polling loop is embedded with explicit fuel;
non-termination of the loop is the statement that the embedding returns
`none` for every fuel.  Side effects (remote calls and the e-mail send)
are recorded in an explicit trace.
-/

/-- Captured output of one external command, mirroring the `stdout` and
`stderr` fields of Python's `CompletedProcess`. -/
structure CmdResult where
  stdout : String
  stderr : String
deriving DecidableEq

/-- Oracle for the remote job interface: the textual responses the Zowe CLI
would produce for each command of the source.  `statusRes` also takes the
index of the polling attempt for that job. -/
structure Env where
  submitRes : String → CmdResult
  statusRes : String → Nat → CmdResult
  rcRes : String → CmdResult
  logsRes : String → CmdResult

/-- Does `pat` occur at the head of `l`?  Helper for substring containment. -/
def leadMatch : List Char → List Char → Bool
  | [], _ => true
  | _ :: _, [] => false
  | a :: as, b :: bs => a == b && leadMatch as bs

/-- Does `pat` occur contiguously anywhere in `l`?  Helper for
substring containment. -/
def hasSubList (pat : List Char) : List Char → Bool
  | [] => leadMatch pat []
  | b :: bs => leadMatch pat (b :: bs) || hasSubList pat bs

/-- Embedding of Python's substring test `pat in s`. -/
def strContains (pat s : String) : Bool :=
  hasSubList pat.toList s.toList

/-- Embedding of Python's `s.split(" ")` at character level: split on every
single space character, keeping empty segments.  The result is never `[]`. -/
def splitOnSpace : List Char → List (List Char)
  | [] => [[]]
  | c :: cs =>
    match splitOnSpace cs with
    | [] => [[c]]
    | t :: ts => if c == ' ' then [] :: t :: ts else (c :: t) :: ts

/-- Drop leading whitespace characters. -/
def dropLeadWs : List Char → List Char
  | [] => []
  | c :: cs => if c.isWhitespace then dropLeadWs cs else c :: cs

/-- Embedding of Python's `s.strip()`: drop whitespace at both ends. -/
def trimChars (l : List Char) : List Char :=
  (dropLeadWs (dropLeadWs l.reverse).reverse)

/-- Longest whitespace-free head of the list. -/
def takeNonWs : List Char → List Char
  | [] => []
  | c :: cs => if c.isWhitespace then [] else c :: takeNonWs cs

/-- Follows the spec's words: the trailing whitespace-delimited token of a
text, i.e. its last maximal run of non-whitespace characters (empty when the
text has no non-whitespace character). -/
def trailingWsToken (l : List Char) : List Char :=
  (takeNonWs (dropLeadWs l.reverse)).reverse

/-- Embedding of `ZoweCLI.submit_jcl`: `None` when the error stream contains
the marker `DATA_SET_NOT_FOUND`, otherwise the stripped standard output as
the job id. -/
def submit_jcl (env : Env) (jcl_name : String) : Option String :=
  let result := env.submitRes jcl_name
  if strContains "DATA_SET_NOT_FOUND" result.stderr then none
  else some (List.asString (trimChars result.stdout.toList))

/-- Embedding of `ZoweCLI.get_job_status` at polling attempt `attempt`:
whether the status output contains the terminal marker `STATUS: OUTPUT`. -/
def get_job_status (env : Env) (job_id : String) (attempt : Nat) : Bool :=
  strContains "STATUS: OUTPUT" (env.statusRes job_id attempt).stdout

/-- Embedding of `ZoweCLI.get_output_code`: the last single-space-delimited
segment of the return-code query's standard output, stripped of whitespace. -/
def get_output_code (env : Env) (job_id : String) : String :=
  List.asString (trimChars ((splitOnSpace (env.rcRes job_id).stdout.toList).getLastD []))

/-- Embedding of `ZoweCLI.get_job_logs`: raw standard output of the
spool-file query. -/
def get_job_logs (env : Env) (job_id : String) : String :=
  (env.logsRes job_id).stdout

/-- Fuel-indexed embedding of the polling `while` loop, carrying the next
attempt index and the time slept so far (`time.sleep(5)` per iteration).
Returns the attempt at which the terminal marker was first observed together
with the total slept time, or `none` if fuel ran out first. -/
def pollAux (env : Env) (job_id : String) : Nat → Nat → Nat → Option (Nat × Nat)
  | 0, _, _ => none
  | fuel + 1, attempt, slept =>
    if get_job_status env job_id attempt then some (attempt, slept)
    else pollAux env job_id fuel (attempt + 1) (slept + 5)

/-- The polling loop of `main` (lines 191-192), starting at attempt `0` with
no time slept. -/
def poll_until_terminal (env : Env) (job_id : String) (fuel : Nat) : Option (Nat × Nat) :=
  pollAux env job_id fuel 0 0

/-- One invocation of `ZoweCLI.send_email`, recording recipient, subject and
body.  The source pipes the body to `mail` and ignores the result, so no
delivery outcome exists to record. -/
structure Notification where
  email : String
  subject : String
  body : String
deriving DecidableEq

/-- One external effect performed while processing a manifest entry. -/
inductive RemoteCall where
  | submit (jcl_name : String)
  | status (job_id : String) (attempt : Nat)
  | rc (job_id : String)
  | logs (job_id : String)
  | email (n : Notification)
deriving DecidableEq

/-- Project a trace element to its notification, if it is an e-mail send. -/
def emailOf : RemoteCall → Option Notification
  | RemoteCall.email n => some n
  | _ => none

/-- An uncaught `IndexError` in the loop body of `main`: reading `jcl[0]`
(the job reference) or `jcl[1]` (the notification address). -/
inductive Fault where
  | jclNameIndex : Fault
  | emailIndex : Fault
deriving DecidableEq

/-- Result of processing one manifest entry: an appended report row, an
uncaught indexing fault, or polling fuel exhausted (the modelling of the
unbounded wait). -/
inductive EntryResult where
  | row (r : List String) : EntryResult
  | fault (f : Fault) : EntryResult
  | stalled : EntryResult
deriving DecidableEq

/-- Embedding of one iteration of the `for jcl in jcls` loop body of `main`
(lines 182-198): read the two columns, submit, and either record the
not-found row, or poll to terminal, classify, fetch logs, send the e-mail
and record the outcome row.  Returns the trace of external effects together
with the entry's result. -/
def processEntry (env : Env) (fuel : Nat) (jcl : List String) :
    List RemoteCall × EntryResult :=
  match jcl.get? 0 with
  | none => ([], EntryResult.fault Fault.jclNameIndex)
  | some jcl_name =>
    match jcl.get? 1 with
    | none => ([], EntryResult.fault Fault.emailIndex)
    | some email =>
      match submit_jcl env jcl_name with
      | none => ([RemoteCall.submit jcl_name],
                 EntryResult.row [jcl_name, "N/A", "Fail", "No"])
      | some job_id =>
        match poll_until_terminal env job_id fuel with
        | none =>
          (RemoteCall.submit jcl_name ::
             (List.range fuel).map (RemoteCall.status job_id),
           EntryResult.stalled)
        | some (n, _) =>
          let output_code := get_output_code env job_id
          let logs := get_job_logs env job_id
          let note : Notification := ⟨email, "JCL Execution Logs", logs⟩
          (RemoteCall.submit jcl_name ::
             ((List.range (n + 1)).map (RemoteCall.status job_id) ++
              [RemoteCall.rc job_id, RemoteCall.logs job_id, RemoteCall.email note]),
           EntryResult.row [jcl_name, output_code,
             if output_code = "0000" then "Pass" else "Fail", "Yes"])

/-- How the batch run ended: all entries processed, halted by an uncaught
indexing fault, or stuck in a polling loop (fuel exhausted). -/
inductive BatchResult where
  | completed : BatchResult
  | faulted (f : Fault) : BatchResult
  | stalled : BatchResult
deriving DecidableEq

/-- Embedding of the `for` loop of `main`: process entries in manifest
order, appending one report row per entry; a fault or a stalled poll halts
the loop, keeping the rows already written. -/
def mainLoop (env : Env) (fuel : Nat) :
    List (List String) → List (List String) × List RemoteCall × BatchResult
  | [] => ([], [], BatchResult.completed)
  | jcl :: rest =>
    match processEntry env fuel jcl with
    | (tr, EntryResult.row r) =>
      let restRun := mainLoop env fuel rest
      (r :: restRun.1, tr ++ restRun.2.1, restRun.2.2)
    | (tr, EntryResult.fault f) => ([], tr, BatchResult.faulted f)
    | (tr, EntryResult.stalled) => ([], tr, BatchResult.stalled)

/-- Embedding of `main` (lines 171-198) given the parsed manifest: the rows
written to the report (header first), the trace of external effects, and how
the run ended. -/
def runBatch (env : Env) (fuel : Nat) (jcls : List (List String)) :
    List (List String) × List RemoteCall × BatchResult :=
  let body := mainLoop env fuel jcls
  (["JCL Name", "Output Code", "JCL Pass/Fail", "Email Sent"] :: body.1,
   body.2.1, body.2.2)

/-- The report row an entry produces, when it produces one. -/
def entryRow? (env : Env) (fuel : Nat) (jcl : List String) : Option (List String) :=
  match processEntry env fuel jcl with
  | (_, EntryResult.row r) => some r
  | _ => none

/-- Remote oracle for concrete runs: `MISSING99` has no data set; every job
becomes terminal at the second status query; return code `0000`. -/
def envOk : Env where
  submitRes := fun name =>
    if name = "MISSING99" then ⟨"", "error DATA_SET_NOT_FOUND details"⟩
    else ⟨"JOB00001\n", ""⟩
  statusRes := fun _ attempt =>
    if attempt == 0 then ⟨"STATUS: ACTIVE", ""⟩ else ⟨"STATUS: OUTPUT", ""⟩
  rcRes := fun _ => ⟨"CC 0000\n", ""⟩
  logsRes := fun _ => ⟨"job log text", ""⟩

/-- Remote oracle whose status query never reports the terminal marker. -/
def envNever : Env where
  submitRes := fun _ => ⟨"JOB00002\n", ""⟩
  statusRes := fun _ _ => ⟨"STATUS: ACTIVE", ""⟩
  rcRes := fun _ => ⟨"CC 0000\n", ""⟩
  logsRes := fun _ => ⟨"log", ""⟩

/-- Remote oracle whose return-code response ends in a space. -/
def envRC : Env where
  submitRes := fun _ => ⟨"JOB00003", ""⟩
  statusRes := fun _ _ => ⟨"STATUS: OUTPUT", ""⟩
  rcRes := fun _ => ⟨"RC 0000 ", ""⟩
  logsRes := fun _ => ⟨"log", ""⟩

/-- Sanity check of the embedding against the spec's end-to-end scenario:
a completing `"0000"` job and a missing definition. -/
theorem runBatch_end_to_end_scenario :
    (runBatch envOk 5 [["PAYROLL01", "a@x.com"], ["MISSING99", "b@x.com"]]).1 =
      [["JCL Name", "Output Code", "JCL Pass/Fail", "Email Sent"],
       ["PAYROLL01", "0000", "Pass", "Yes"],
       ["MISSING99", "N/A", "Fail", "No"]] := by decide

theorem pollAux_some_spec (env : Env) (jid : String) (fuel : Nat) :
    ∀ a s n t, pollAux env jid fuel a s = some (n, t) →
      a ≤ n ∧ t = s + 5 * (n - a) ∧ get_job_status env jid n = true ∧
      ∀ m, a ≤ m → m < n → get_job_status env jid m = false := by
  induction fuel with
  | zero => intro a s n t h; simp [pollAux] at h
  | succ fuel ih =>
    intro a s n t h
    by_cases hs : get_job_status env jid a
    · simp [pollAux, hs] at h
      obtain ⟨hn, ht⟩ := h
      subst hn; subst ht
      exact ⟨le_refl a, by simp, hs, fun m hm1 hm2 => absurd hm1 (by omega)⟩
    · simp only [pollAux, hs, if_neg, Bool.false_eq_true, if_false] at h
      obtain ⟨h1, h2, h3, h4⟩ := ih (a + 1) (s + 5) n t h
      refine ⟨by omega, by omega, h3, ?_⟩
      intro m hm1 hm2
      rcases Nat.eq_or_lt_of_le hm1 with he | hl
      · subst he
        simpa using hs
      · exact h4 m hl hm2

theorem pollAux_none_of_never (env : Env) (jid : String)
    (hnever : ∀ m, get_job_status env jid m = false) :
    ∀ fuel a s, pollAux env jid fuel a s = none := by
  intro fuel
  induction fuel with
  | zero => intro a s; rfl
  | succ fuel ih =>
    intro a s
    simp only [pollAux, hnever a, Bool.false_eq_true, if_false]
    exact ih (a + 1) (s + 5)

theorem pollAux_some_of_status (env : Env) (jid : String) (k : Nat)
    (hk : get_job_status env jid k = true) :
    ∀ fuel a s, a ≤ k → k < a + fuel →
      ∃ n t, pollAux env jid fuel a s = some (n, t) := by
  intro fuel
  induction fuel with
  | zero => intro a s h1 h2; omega
  | succ fuel ih =>
    intro a s h1 h2
    by_cases hs : get_job_status env jid a
    · exact ⟨a, s, by simp [pollAux, hs]⟩
    · have hak : a ≠ k := fun he => hs (he ▸ hk)
      obtain ⟨n, t, hnt⟩ := ih (a + 1) (s + 5) (by omega) (by omega)
      refine ⟨n, t, ?_⟩
      simpa only [pollAux, hs, Bool.false_eq_true, if_false] using hnt

/-- C4: `poll_until_terminal` queries the job status repeatedly, sleeping a
fixed 5 time units between queries, and returns exactly at the first query
reporting the terminal indicator; it succeeds whenever some query within the
fuel bound reports terminal (no timeout or retry cap), and for a job whose
status queries never report the terminal indicator it returns `none` at
every fuel, so the orchestrator's entry stays `stalled` for every fuel — the
loop does not terminate. -/
theorem poll_until_terminal_characterization (env : Env) (job_id : String) :
    (∀ fuel n t, poll_until_terminal env job_id fuel = some (n, t) →
        t = 5 * n ∧ get_job_status env job_id n = true ∧
        ∀ m, m < n → get_job_status env job_id m = false) ∧
    (∀ k fuel, get_job_status env job_id k = true → k < fuel →
        ∃ n t, poll_until_terminal env job_id fuel = some (n, t)) ∧
    ((∀ m, get_job_status env job_id m = false) →
        ∀ fuel, poll_until_terminal env job_id fuel = none) ∧
    (∀ fuel jcl jcl_name email, jcl.get? 0 = some jcl_name →
        jcl.get? 1 = some email → submit_jcl env jcl_name = some job_id →
        (∀ m, get_job_status env job_id m = false) →
        (processEntry env fuel jcl).2 = EntryResult.stalled) := by
  refine ⟨?_, ?_, ?_, ?_⟩
  · intro fuel n t h
    obtain ⟨h1, h2, h3, h4⟩ := pollAux_some_spec env job_id fuel 0 0 n t h
    exact ⟨by omega, h3, fun m hm => h4 m (Nat.zero_le m) hm⟩
  · intro k fuel hk hlt
    exact pollAux_some_of_status env job_id k hk fuel 0 0 (Nat.zero_le k) (by omega)
  · intro hnever fuel
    exact pollAux_none_of_never env job_id hnever fuel 0 0
  · intro fuel jcl jcl_name email h0 h1 hsub hnever
    have hp : poll_until_terminal env job_id fuel = none :=
      pollAux_none_of_never env job_id hnever fuel 0 0
    rw [List.get?_eq_getElem?] at h0 h1
    simp [processEntry, h0, h1, hsub, hp]

/-- Witness for `poll_until_terminal_characterization`: a job of `envOk`
becomes terminal at the second query, and a job of `envNever` makes the
poll loop return `none` at fuel 7. -/
theorem poll_until_terminal_characterization_witness :
    (get_job_status envOk "JOB00001" 1 = true ∧
      get_job_status envOk "JOB00001" 0 = false) ∧
    poll_until_terminal envNever "JOB00002" 7 = none := by
  constructor
  · have h := (poll_until_terminal_characterization envOk "JOB00001").1 3 1 5 (by decide)
    exact ⟨h.2.1, h.2.2 0 (by decide)⟩
  · exact (poll_until_terminal_characterization envNever "JOB00002").2.2.1
      (fun m => rfl) 7

theorem processEntry_notfound (env : Env) (fuel : Nat) (jcl : List String)
    (jcl_name email : String)
    (h0 : jcl.get? 0 = some jcl_name) (h1 : jcl.get? 1 = some email)
    (hsub : submit_jcl env jcl_name = none) :
    processEntry env fuel jcl =
      ([RemoteCall.submit jcl_name],
       EntryResult.row [jcl_name, "N/A", "Fail", "No"]) := by
  rw [List.get?_eq_getElem?] at h0 h1
  simp [processEntry, h0, h1, hsub]

theorem processEntry_completed (env : Env) (fuel : Nat) (jcl : List String)
    (jcl_name email job_id : String) (n t : Nat)
    (h0 : jcl.get? 0 = some jcl_name) (h1 : jcl.get? 1 = some email)
    (hsub : submit_jcl env jcl_name = some job_id)
    (hpoll : poll_until_terminal env job_id fuel = some (n, t)) :
    processEntry env fuel jcl =
      (RemoteCall.submit jcl_name ::
         ((List.range (n + 1)).map (RemoteCall.status job_id) ++
          [RemoteCall.rc job_id, RemoteCall.logs job_id,
           RemoteCall.email ⟨email, "JCL Execution Logs", get_job_logs env job_id⟩]),
       EntryResult.row [jcl_name, get_output_code env job_id,
         if get_output_code env job_id = "0000" then "Pass" else "Fail", "Yes"]) := by
  rw [List.get?_eq_getElem?] at h0 h1
  simp [processEntry, h0, h1, hsub, hpoll]

/-- C8: for an entry whose submission signals the missing job definition,
the only external effect is the single submit call — no status query, no
return-code query, no log fetch and no notification — and the entry's
result is the appended outcome row. -/
theorem notfound_entry_frame (env : Env) (fuel : Nat) (jcl : List String)
    (jcl_name email : String)
    (h0 : jcl.get? 0 = some jcl_name) (h1 : jcl.get? 1 = some email)
    (hsub : submit_jcl env jcl_name = none) :
    processEntry env fuel jcl =
      ([RemoteCall.submit jcl_name],
       EntryResult.row [jcl_name, "N/A", "Fail", "No"]) :=
  processEntry_notfound env fuel jcl jcl_name email h0 h1 hsub

/-- Witness for `notfound_entry_frame` on the missing data set of `envOk`. -/
theorem notfound_entry_frame_witness :
    processEntry envOk 5 ["MISSING99", "b@x.com"] =
      ([RemoteCall.submit "MISSING99"],
       EntryResult.row ["MISSING99", "N/A", "Fail", "No"]) :=
  notfound_entry_frame envOk 5 _ "MISSING99" "b@x.com" rfl rfl (by decide)

/-- C2: an entry whose submission signals the missing job definition yields
exactly the outcome row `[name, "N/A", "Fail", "No"]`, and the batch
continues with the remaining entries unchanged. -/
theorem notfound_row_appended_and_batch_continues (env : Env) (fuel : Nat)
    (jcl : List String) (jcl_name email : String) (rest : List (List String))
    (h0 : jcl.get? 0 = some jcl_name) (h1 : jcl.get? 1 = some email)
    (hsub : submit_jcl env jcl_name = none) :
    mainLoop env fuel (jcl :: rest) =
      ([jcl_name, "N/A", "Fail", "No"] :: (mainLoop env fuel rest).1,
       RemoteCall.submit jcl_name :: (mainLoop env fuel rest).2.1,
       (mainLoop env fuel rest).2.2) := by
  have hpe := processEntry_notfound env fuel jcl jcl_name email h0 h1 hsub
  simp [mainLoop, hpe]

/-- Witness for `notfound_row_appended_and_batch_continues` on a two-entry
manifest whose first data set is missing. -/
theorem notfound_row_appended_and_batch_continues_witness :
    mainLoop envOk 5 [["MISSING99", "b@x.com"], ["PAYROLL01", "a@x.com"]] =
      (["MISSING99", "N/A", "Fail", "No"] ::
         (mainLoop envOk 5 [["PAYROLL01", "a@x.com"]]).1,
       RemoteCall.submit "MISSING99" ::
         (mainLoop envOk 5 [["PAYROLL01", "a@x.com"]]).2.1,
       (mainLoop envOk 5 [["PAYROLL01", "a@x.com"]]).2.2) :=
  notfound_row_appended_and_batch_continues envOk 5 _ "MISSING99" "b@x.com" _
    rfl rfl (by decide)

/-- C5: `submit_jcl` returns `none` (the not-found signal) exactly when the
remote error stream contains the `DATA_SET_NOT_FOUND` marker; for every
other remote response it returns a job handle of the same shape as a
successful submission, namely the stripped standard output. -/
theorem submit_jcl_notfound_iff_marker (env : Env) (jcl_name : String) :
    (submit_jcl env jcl_name = none ↔
       strContains "DATA_SET_NOT_FOUND" (env.submitRes jcl_name).stderr = true) ∧
    (strContains "DATA_SET_NOT_FOUND" (env.submitRes jcl_name).stderr = false →
       submit_jcl env jcl_name =
         some (List.asString (trimChars (env.submitRes jcl_name).stdout.toList))) := by
  by_cases hm : strContains "DATA_SET_NOT_FOUND" (env.submitRes jcl_name).stderr = true
  · refine ⟨⟨fun _ => hm, fun _ => ?_⟩, fun hf => ?_⟩
    · simp [submit_jcl, hm]
    · rw [hm] at hf; exact absurd hf (by simp)
  · have hm' : strContains "DATA_SET_NOT_FOUND" (env.submitRes jcl_name).stderr = false := by
      simpa using hm
    refine ⟨⟨fun h => ?_, fun h => absurd h hm⟩, fun _ => ?_⟩
    · exfalso; simp [submit_jcl, hm'] at h
    · simp [submit_jcl, hm']

/-- Witness for `submit_jcl_notfound_iff_marker`: the missing and the
existing data set of `envOk`. -/
theorem submit_jcl_notfound_iff_marker_witness :
    submit_jcl envOk "MISSING99" = none ∧
    submit_jcl envOk "PAYROLL01" =
      some (List.asString (trimChars (envOk.submitRes "PAYROLL01").stdout.toList)) := by
  constructor
  · exact (submit_jcl_notfound_iff_marker envOk "MISSING99").1.mpr (by decide)
  · exact (submit_jcl_notfound_iff_marker envOk "PAYROLL01").2 (by decide)

/-- C7: an entry that is submitted and reaches terminal state performs
exactly one notification call, addressed to the entry's notify column with
the fixed subject and exactly the fetched log text as body; its outcome row
records the e-mail as sent (`"Yes"`) — delivery is not verified, the source
ignores the result of the `mail` command. -/
theorem completed_entry_single_notification (env : Env) (fuel : Nat)
    (jcl : List String) (jcl_name email job_id : String) (n t : Nat)
    (h0 : jcl.get? 0 = some jcl_name) (h1 : jcl.get? 1 = some email)
    (hsub : submit_jcl env jcl_name = some job_id)
    (hpoll : poll_until_terminal env job_id fuel = some (n, t)) :
    (processEntry env fuel jcl).1.filterMap emailOf =
      [⟨email, "JCL Execution Logs", get_job_logs env job_id⟩] ∧
    (processEntry env fuel jcl).2 =
      EntryResult.row [jcl_name, get_output_code env job_id,
        if get_output_code env job_id = "0000" then "Pass" else "Fail", "Yes"] := by
  have hpe := processEntry_completed env fuel jcl jcl_name email job_id n t h0 h1 hsub hpoll
  rw [hpe]
  refine ⟨?_, rfl⟩
  simp [emailOf, List.filterMap_map, Function.comp]

/-- Witness for `completed_entry_single_notification` on the completing
entry of `envOk`. -/
theorem completed_entry_single_notification_witness :
    (processEntry envOk 5 ["PAYROLL01", "a@x.com"]).1.filterMap emailOf =
      [⟨"a@x.com", "JCL Execution Logs", get_job_logs envOk "JOB00001"⟩] ∧
    (processEntry envOk 5 ["PAYROLL01", "a@x.com"]).2 =
      EntryResult.row ["PAYROLL01", get_output_code envOk "JOB00001",
        if get_output_code envOk "JOB00001" = "0000" then "Pass" else "Fail", "Yes"] :=
  completed_entry_single_notification envOk 5 _ "PAYROLL01" "a@x.com" "JOB00001"
    1 5 rfl rfl (by decide) (by decide)

theorem processEntry_row_shape (env : Env) (fuel : Nat) (jcl : List String)
    (tr : List RemoteCall) (r : List String)
    (h : processEntry env fuel jcl = (tr, EntryResult.row r)) :
    ∃ jcl_name code sent,
      r = [jcl_name, code, if code = "0000" then "Pass" else "Fail", sent] := by
  have hNA : (if ("N/A" : String) = "0000" then "Pass" else "Fail") = "Fail" := by decide
  rw [processEntry] at h
  split at h
  · exact absurd h (by simp)
  · split at h
    · exact absurd h (by simp)
    · split at h
      · simp only [Prod.mk.injEq, EntryResult.row.injEq] at h
        exact ⟨_, "N/A", "No", by rw [← h.2, hNA]⟩
      · split at h
        · exact absurd h (by simp)
        · simp only [Prod.mk.injEq, EntryResult.row.injEq] at h
          exact ⟨_, _, "Yes", h.2.symm⟩

theorem mainLoop_rows_mem (env : Env) (fuel : Nat) :
    ∀ jcls r, r ∈ (mainLoop env fuel jcls).1 →
      ∃ jcl ∈ jcls, ∃ tr, processEntry env fuel jcl = (tr, EntryResult.row r) := by
  intro jcls
  induction jcls with
  | nil => intro r hr; simp [mainLoop] at hr
  | cons jcl rest ih =>
    intro r hr
    rcases hpe : processEntry env fuel jcl with ⟨tr, res⟩
    cases res with
    | row r0 =>
      simp only [mainLoop, hpe, List.mem_cons] at hr
      rcases hr with h | h
      · exact ⟨jcl, by simp, tr, by rw [hpe, h]⟩
      · obtain ⟨jcl2, hj2, tr2, hpe2⟩ := ih r h
        exact ⟨jcl2, by simp [hj2], tr2, hpe2⟩
    | fault f => simp only [mainLoop, hpe] at hr; simp at hr
    | stalled => simp only [mainLoop, hpe] at hr; simp at hr

/-- C1: every emitted outcome row records verdict `Pass` exactly when its
recorded return code is the string `"0000"`; any other value — `"N/A"`,
empty, or non-numeric text — yields `Fail`. -/
theorem verdict_pass_iff_code_0000 (env : Env) (fuel : Nat)
    (jcls : List (List String)) (r : List String)
    (hr : r ∈ (mainLoop env fuel jcls).1) :
    ∃ jcl_name code sent,
      r = [jcl_name, code, if code = "0000" then "Pass" else "Fail", sent] ∧
      (r.get? 2 = some "Pass" ↔ code = "0000") := by
  obtain ⟨jcl, _, tr, hpe⟩ := mainLoop_rows_mem env fuel jcls r hr
  obtain ⟨jcl_name, code, sent, hshape⟩ := processEntry_row_shape env fuel jcl tr r hpe
  refine ⟨jcl_name, code, sent, hshape, ?_⟩
  subst hshape
  by_cases hc : code = "0000"
  · simp [hc]
  · simp only [hc, if_false, iff_false]
    intro hcontra
    simp only [List.get?] at hcontra
    exact absurd (Option.some.inj hcontra) (by decide)

/-- Witness for `verdict_pass_iff_code_0000` on a passing row of `envOk`. -/
theorem verdict_pass_iff_code_0000_witness :
    ∃ jcl_name code sent,
      ["PAYROLL01", "0000", "Pass", "Yes"] =
        [jcl_name, code, if code = "0000" then "Pass" else "Fail", sent] ∧
      (["PAYROLL01", "0000", "Pass", "Yes"].get? 2 = some "Pass" ↔ code = "0000") :=
  verdict_pass_iff_code_0000 envOk 5 [["PAYROLL01", "a@x.com"]] _ (by decide)

theorem mainLoop_all_rows (env : Env) (fuel : Nat) :
    ∀ jcls, (∀ jcl ∈ jcls, (entryRow? env fuel jcl).isSome = true) →
      (mainLoop env fuel jcls).1.length = jcls.length ∧
      ∀ i, (mainLoop env fuel jcls).1.get? i =
        (jcls.get? i).bind (entryRow? env fuel) := by
  intro jcls
  induction jcls with
  | nil => intro _; exact ⟨rfl, fun i => by cases i <;> rfl⟩
  | cons jcl rest ih =>
    intro h
    have hhead := h jcl (by simp)
    rcases hpe : processEntry env fuel jcl with ⟨tr, res⟩
    cases res with
    | row r =>
      have hrest := ih (fun j hj => h j (by simp [hj]))
      constructor
      · simp only [mainLoop, hpe, List.length_cons, hrest.1]
      · intro i
        cases i with
        | zero => simp [mainLoop, hpe, entryRow?]
        | succ i => simp only [mainLoop, hpe, List.get?]; simpa using hrest.2 i
    | fault f => exfalso; rw [entryRow?, hpe] at hhead; simp at hhead
    | stalled => exfalso; rw [entryRow?, hpe] at hhead; simp at hhead

/-- C3: when every manifest entry takes the missing-definition or the normal
completion path (i.e. it produces an outcome row), the batch emits exactly
one outcome row per manifest entry, the i-th row being the row of the i-th
entry. -/
theorem one_outcome_row_per_entry_in_order (env : Env) (fuel : Nat)
    (jcls : List (List String))
    (h : ∀ jcl ∈ jcls, (entryRow? env fuel jcl).isSome = true) :
    (mainLoop env fuel jcls).1.length = jcls.length ∧
    ∀ i, (mainLoop env fuel jcls).1.get? i =
      (jcls.get? i).bind (entryRow? env fuel) :=
  mainLoop_all_rows env fuel jcls h

/-- Witness for `one_outcome_row_per_entry_in_order`: a manifest with one
completing and one missing entry. -/
theorem one_outcome_row_per_entry_in_order_witness :
    (mainLoop envOk 5 [["PAYROLL01", "a@x.com"], ["MISSING99", "b@x.com"]]).1.length = 2 ∧
    ∀ i, (mainLoop envOk 5 [["PAYROLL01", "a@x.com"], ["MISSING99", "b@x.com"]]).1.get? i =
      ([["PAYROLL01", "a@x.com"], ["MISSING99", "b@x.com"]].get? i).bind (entryRow? envOk 5) :=
  one_outcome_row_per_entry_in_order envOk 5 _ (by decide)

/-- Counterexample to C9 as stated: on the manifest with the single
one-column row `["ONLYNAME"]`, the report consists of the header row alone —
zero data rows for one manifest entry, because the entry's uncaught indexing
fault halts the batch after the header is written. -/
theorem report_missing_rows_cex :
    (runBatch envOk 5 [["ONLYNAME"]]).1 =
      [["JCL Name", "Output Code", "JCL Pass/Fail", "Email Sent"]] ∧
    (runBatch envOk 5 [["ONLYNAME"]]).1.length ≠ [["ONLYNAME"]].length + 1 :=
  ⟨by decide, by decide⟩

/-- C9 (amended): the report always begins with exactly the header row
`["JCL Name", "Output Code", "JCL Pass/Fail", "Email Sent"]` and its
remaining rows are the batch's outcome rows; when every manifest entry
produces an outcome row there is one data row per manifest entry, but a
faulting (or stalled) entry halts the batch after the header, leaving fewer
data rows than entries. -/
theorem report_header_then_rows_amended (env : Env) (fuel : Nat)
    (jcls : List (List String)) :
    (runBatch env fuel jcls).1.get? 0 =
      some ["JCL Name", "Output Code", "JCL Pass/Fail", "Email Sent"] ∧
    (runBatch env fuel jcls).1.tail = (mainLoop env fuel jcls).1 ∧
    ((∀ jcl ∈ jcls, (entryRow? env fuel jcl).isSome = true) →
      (runBatch env fuel jcls).1.length = jcls.length + 1) := by
  refine ⟨rfl, rfl, fun h => ?_⟩
  have hlen := (mainLoop_all_rows env fuel jcls h).1
  simp [runBatch, hlen]

/-- Witness for `report_header_then_rows_amended` on the two-entry manifest
of `envOk`, discharging the all-entries-produce-a-row hypothesis. -/
theorem report_header_then_rows_amended_witness :
    (runBatch envOk 5 [["PAYROLL01", "a@x.com"], ["MISSING99", "b@x.com"]]).1.length = 3 :=
  (report_header_then_rows_amended envOk 5
    [["PAYROLL01", "a@x.com"], ["MISSING99", "b@x.com"]]).2.2 (by decide)

/-- Counterexample to C10 as stated: a zero-column manifest row faults when
reading the job reference (column 0), before the notification address
(column 1) is ever read, so the indexing fault of a row with fewer than two
columns is not always raised at the notification-address access. -/
theorem empty_row_fault_cex :
    (processEntry envOk 5 []).2 = EntryResult.fault Fault.jclNameIndex ∧
    EntryResult.fault Fault.jclNameIndex ≠ EntryResult.fault Fault.emailIndex := by
  exact ⟨rfl, by decide⟩

theorem mainLoop_no_fault (env : Env) (fuel : Nat) :
    ∀ jcls : List (List String), (∀ row ∈ jcls, 2 ≤ row.length) →
      ∀ f, (mainLoop env fuel jcls).2.2 ≠ BatchResult.faulted f := by
  intro jcls
  induction jcls with
  | nil => intro _ f h; cases h
  | cons jcl rest ih =>
    intro hcols f
    have hlen := hcols jcl (by simp)
    obtain ⟨a, b, rest2, hj⟩ : ∃ a b r2, jcl = a :: b :: r2 := by
      match jcl, hlen with
      | a :: b :: r2, _ => exact ⟨a, b, r2, rfl⟩
    subst hj
    rcases hpe : processEntry env fuel (a :: b :: rest2) with ⟨tr, res⟩
    cases res with
    | row r =>
      simp only [mainLoop, hpe]
      exact ih (fun j hj => hcols j (by simp [hj])) f
    | fault fa =>
      exfalso
      simp only [processEntry, List.get?] at hpe
      split at hpe
      · simp at hpe
      · split at hpe <;> simp at hpe
    | stalled =>
      simp only [mainLoop, hpe]
      simp

/-- C10 (amended): a one-column manifest row raises the uncaught indexing
fault at the notification-address read, while a zero-column row raises it at
the job-reference read; either fault halts the batch with no outcome row for
that entry and the remaining entries unprocessed; and under the precondition
that every row has at least two columns, the column accesses never fault. -/
theorem short_row_fault_amended (env : Env) (fuel : Nat) :
    (∀ jcl : List String, jcl.length = 1 →
        processEntry env fuel jcl = ([], EntryResult.fault Fault.emailIndex)) ∧
    processEntry env fuel [] = ([], EntryResult.fault Fault.jclNameIndex) ∧
    (∀ (jcl : List String) (rest : List (List String)) (tr : List RemoteCall) (f : Fault),
        processEntry env fuel jcl = (tr, EntryResult.fault f) →
        mainLoop env fuel (jcl :: rest) = ([], tr, BatchResult.faulted f)) ∧
    (∀ jcls : List (List String), (∀ row ∈ jcls, 2 ≤ row.length) →
        ∀ f, (mainLoop env fuel jcls).2.2 ≠ BatchResult.faulted f) := by
  refine ⟨?_, rfl, ?_, mainLoop_no_fault env fuel⟩
  · intro jcl hlen
    match jcl, hlen with
    | [a], _ => rfl
  · intro jcl rest tr f hpe
    simp only [mainLoop, hpe]

/-- Witness for `short_row_fault_amended`: a one-column row faults at the
notification-address read. -/
theorem short_row_fault_amended_witness :
    processEntry envOk 5 ["ONLYNAME"] = ([], EntryResult.fault Fault.emailIndex) :=
  (short_row_fault_amended envOk 5).1 ["ONLYNAME"] rfl

theorem splitOnSpace_ne_nil (l : List Char) : splitOnSpace l ≠ [] := by
  cases l with
  | nil => simp [splitOnSpace]
  | cons c cs =>
    rcases h : splitOnSpace cs with _ | ⟨t, ts⟩
    · simp [splitOnSpace, h]
    · simp only [splitOnSpace, h]
      split <;> simp

theorem splitOnSpace_two_le (l : List Char) (hl : ' ' ∈ l) :
    2 ≤ (splitOnSpace l).length := by
  induction l with
  | nil => cases hl
  | cons c cs ih =>
    rcases h : splitOnSpace cs with _ | ⟨t, ts⟩
    · exact absurd h (splitOnSpace_ne_nil cs)
    · simp only [splitOnSpace, h]
      by_cases hc : (c == ' ') = true
      · rw [if_pos hc]
        simp
      · rw [if_neg hc]
        have hc' : c ≠ ' ' := by simpa using hc
        have hmem : ' ' ∈ cs := by
          rcases List.mem_cons.mp hl with he | hm
          · exact absurd he.symm hc'
          · exact hm
        have h2 := ih hmem
        rw [h] at h2
        simp only [List.length_cons] at h2 ⊢
        omega

theorem splitOnSpace_no_space (l : List Char) (h : ' ' ∉ l) :
    splitOnSpace l = [l] := by
  induction l with
  | nil => rfl
  | cons c cs ih =>
    have h' : splitOnSpace cs = [cs] := ih (fun hm => h (by simp [hm]))
    simp only [splitOnSpace, h']
    rw [if_neg (by simpa using fun he : c = ' ' => h (by simp [he]))]

theorem getLastD_irrel {α : Type} (l : List α) (h : l ≠ []) (d1 d2 : α) :
    l.getLastD d1 = l.getLastD d2 := by
  cases l with
  | nil => exact absurd rfl h
  | cons b bs => rw [List.getLastD_cons, List.getLastD_cons]

theorem lastSeg_append_space (m w : List Char) :
    (splitOnSpace (m ++ ' ' :: w)).getLastD [] = (splitOnSpace w).getLastD [] := by
  induction m with
  | nil =>
    rw [List.nil_append]
    rcases h : splitOnSpace w with _ | ⟨t, ts⟩
    · exact absurd h (splitOnSpace_ne_nil w)
    · simp only [splitOnSpace, h]
      rw [if_pos (show (' ' == ' ') = true by decide), List.getLastD_cons]
  | cons c m ih =>
    rw [List.cons_append]
    rcases h : splitOnSpace (m ++ ' ' :: w) with _ | ⟨t, ts⟩
    · exact absurd h (splitOnSpace_ne_nil _)
    · have h2 : 2 ≤ (t :: ts).length := by
        rw [← h]
        exact splitOnSpace_two_le _ (by simp)
      have hts : ts ≠ [] := by
        intro he
        rw [he] at h2
        simp at h2
      rw [h] at ih
      simp only [splitOnSpace, h]
      by_cases hc : (c == ' ') = true
      · rw [if_pos hc, List.getLastD_cons]
        exact ih
      · rw [if_neg hc, List.getLastD_cons, ← ih, List.getLastD_cons]
        exact getLastD_irrel ts hts (c :: t) t

theorem dropLeadWs_all_append (a b : List Char)
    (ha : ∀ c ∈ a, c.isWhitespace = true) :
    dropLeadWs (a ++ b) = dropLeadWs b := by
  induction a with
  | nil => rfl
  | cons c cs ih =>
    rw [List.cons_append, dropLeadWs, if_pos (ha c (by simp))]
    exact ih (fun x hx => ha x (by simp [hx]))

theorem dropLeadWs_cons_false (c : Char) (l : List Char)
    (hc : c.isWhitespace = false) :
    dropLeadWs (c :: l) = c :: l := by
  rw [dropLeadWs, if_neg (by simp [hc])]

theorem takeNonWs_append (a : List Char) (b : Char) (r : List Char)
    (ha : ∀ c ∈ a, c.isWhitespace = false) (hb : b.isWhitespace = true) :
    takeNonWs (a ++ b :: r) = a := by
  induction a with
  | nil => rw [List.nil_append, takeNonWs, if_pos hb]
  | cons c cs ih =>
    rw [List.cons_append, takeNonWs, if_neg (by simp [ha c (by simp)])]
    rw [ih (fun z hz => ha z (by simp [hz]))]

theorem trimChars_core_tail (core tl : List Char) (hc : core ≠ [])
    (hcw : ∀ c ∈ core, c.isWhitespace = false)
    (htl : ∀ c ∈ tl, c.isWhitespace = true) :
    trimChars (core ++ tl) = core := by
  obtain ⟨x, xs, hrev⟩ : ∃ x xs, core.reverse = x :: xs := by
    rcases h : core.reverse with _ | ⟨x, xs⟩
    · exact absurd (by simpa using congrArg List.reverse h) hc
    · exact ⟨x, xs, rfl⟩
  have hx : x.isWhitespace = false :=
    hcw x (List.mem_reverse.mp (by rw [hrev]; simp))
  rw [trimChars, List.reverse_append]
  rw [dropLeadWs_all_append _ _ (fun c hcm => htl c (List.mem_reverse.mp hcm))]
  rw [hrev, dropLeadWs_cons_false x xs hx, ← hrev, List.reverse_reverse]
  cases core with
  | nil => exact absurd rfl hc
  | cons y ys => exact dropLeadWs_cons_false y ys (hcw y (by simp))

theorem trailingWsToken_spec (m core tl : List Char) (hc : core ≠ [])
    (hcw : ∀ c ∈ core, c.isWhitespace = false)
    (htl : ∀ c ∈ tl, c.isWhitespace = true) :
    trailingWsToken (m ++ ' ' :: (core ++ tl)) = core := by
  obtain ⟨x, xs, hrev⟩ : ∃ x xs, core.reverse = x :: xs := by
    rcases h : core.reverse with _ | ⟨x, xs⟩
    · exact absurd (by simpa using congrArg List.reverse h) hc
    · exact ⟨x, xs, rfl⟩
  have hxs : ∀ c ∈ x :: xs, c.isWhitespace = false := by
    intro c hcm
    exact hcw c (List.mem_reverse.mp (by rw [hrev]; exact hcm))
  rw [trailingWsToken, List.reverse_append, List.reverse_cons, List.reverse_append]
  rw [List.append_assoc, List.append_assoc]
  rw [dropLeadWs_all_append _ _ (fun c hcm => htl c (List.mem_reverse.mp hcm))]
  rw [hrev, List.cons_append, dropLeadWs_cons_false x _ (hxs x (by simp))]
  rw [← List.cons_append]
  have hsp : (' ' : Char).isWhitespace = true := by decide
  rw [show ([' '] ++ m.reverse : List Char) = ' ' :: m.reverse from rfl] at *
  rw [takeNonWs_append (x :: xs) ' ' m.reverse hxs hsp]
  rw [← hrev, List.reverse_reverse]

/-- Counterexample to C6 as stated: for the return-code response
`"RC 0000 "` (ending in a space) the code extracts the empty string, while
the trailing whitespace-delimited token of that response is `"0000"`. -/
theorem get_output_code_not_trailing_token_cex :
    get_output_code envRC "JOB00003" = "" ∧
    List.asString (trailingWsToken ((envRC.rcRes "JOB00003").stdout.toList)) = "0000" ∧
    get_output_code envRC "JOB00003" ≠
      List.asString (trailingWsToken ((envRC.rcRes "JOB00003").stdout.toList)) :=
  ⟨by decide, by decide, by decide⟩

/-- C6 (amended): `get_output_code` extracts the last single-space-delimited
field of the return-code response, stripped of surrounding whitespace.  When
the response is some text, then a space, then a whitespace-free code
followed only by non-space whitespace (such as a trailing newline), this is
exactly the trailing whitespace-delimited token of the response; a response
ending in a space instead yields the empty string. -/
theorem output_code_trailing_token_amended (env : Env) (job_id : String)
    (m core tl : List Char)
    (hres : (env.rcRes job_id).stdout.toList = m ++ ' ' :: (core ++ tl))
    (hc : core ≠ []) (hcw : ∀ c ∈ core, c.isWhitespace = false)
    (htl : ∀ c ∈ tl, c.isWhitespace = true ∧ c ≠ ' ') :
    get_output_code env job_id = List.asString core ∧
    trailingWsToken ((env.rcRes job_id).stdout.toList) = core := by
  have htlw : ∀ c ∈ tl, c.isWhitespace = true := fun c h => (htl c h).1
  constructor
  · rw [get_output_code, hres, lastSeg_append_space]
    have hnos : ' ' ∉ core ++ tl := by
      intro hmem
      rcases List.mem_append.mp hmem with h | h
      · exact absurd (hcw ' ' h) (by decide)
      · exact (htl ' ' h).2 rfl
    rw [splitOnSpace_no_space _ hnos]
    simp only [List.getLastD_cons, List.getLastD_nil]
    rw [trimChars_core_tail core tl hc hcw htlw]
  · rw [hres]
    exact trailingWsToken_spec m core tl hc hcw htlw

/-- Witness for `output_code_trailing_token_amended` on the response
`"CC 0000\n"` of `envOk`. -/
theorem output_code_trailing_token_amended_witness :
    get_output_code envOk "JOB00001" = List.asString ['0', '0', '0', '0'] ∧
    trailingWsToken ((envOk.rcRes "JOB00001").stdout.toList) = ['0', '0', '0', '0'] :=
  output_code_trailing_token_amended envOk "JOB00001" ['C', 'C']
    ['0', '0', '0', '0'] ['\n'] (by decide) (by decide) (by decide) (by decide)
